import Mathlib

/-!
Shallow embedding of the durable ring-buffered record log of
`src/info/info_storage.rs` (ESP temperature monitor firmware).

Bytes are modelled as `Nat` values below 256; byte buffers as `List Nat`.
Machine-integer wraparound (`u16`, `u32`) is modelled with explicit `% 2^w`.
The two backing files are modelled as fields of the `InfoStorage` structure:
`data` is the list of `STORAGE_CAPACITY` record buffers (16 bytes each) and
`meta` is the byte content of the metadata file (two 24-byte copies).
I/O faults of the medium do not exist in the model; logical errors
(`ReadError`, `WriteError`, `RecordCorrupted`) are modelled with `Except`.
-/

/-! ## Constants (`info_storage.rs` top of file) -/

def RECORD_MAGIC : Nat := 0x4952
def META_MAGIC : Nat := 0x4D455441
def META_VERSION : Nat := 1
def RECORD_SIZE : Nat := 16
def META_RECORD_SIZE : Nat := 24
def STORAGE_CAPACITY : Nat := 300

/-! ## CRC-16/CCITT (`crc16_ccitt`), poly 0x1021, init 0xFFFF, MSB-first.
`crc <<= 1` on a `u16` truncates, modelled by `&&& 0xFFFF`. -/

def crc16Round (c : Nat) : Nat :=
  if c &&& 0x8000 ≠ 0 then ((c <<< 1) ^^^ 0x1021) &&& 0xFFFF
  else (c <<< 1) &&& 0xFFFF

def crcRounds : Nat → Nat → Nat
  | 0, c => c
  | n+1, c => crcRounds n (crc16Round c)

def crc16Step (c b : Nat) : Nat := crcRounds 8 (c ^^^ (b <<< 8))

def crc16_ccitt (data : List Nat) : Nat := data.foldl crc16Step 0xFFFF

/-! ## Little-endian field helpers (`to_le_bytes` / `from_le_bytes`) -/

def u16le (v : Nat) : List Nat := [v % 256, v / 256 % 256]

def u32le (v : Nat) : List Nat :=
  [v % 256, v / 256 % 256, v / 65536 % 256, v / 16777216 % 256]

/-- `u16::from_le_bytes` of the two bytes of `buf` at positions `i`, `i+1`. -/
def le2at (buf : List Nat) (i : Nat) : Nat :=
  buf.getD i 0 + 256 * buf.getD (i+1) 0

/-- `u32::from_le_bytes` of the four bytes of `buf` at positions `i..i+4`. -/
def le4at (buf : List Nat) (i : Nat) : Nat :=
  buf.getD i 0 + 256 * buf.getD (i+1) 0 + 65536 * buf.getD (i+2) 0 +
    16777216 * buf.getD (i+3) 0

/-- `i8 as u8` (two's complement) for `-128 ≤ t ≤ 127`. -/
def i8ToU8 (t : Int) : Nat := (t % 256).toNat

/-- `u8 as i8` (two's complement). -/
def u8ToI8 (b : Nat) : Int := if b % 256 < 128 then (b % 256 : Nat) else (b % 256 : Nat) - 256

/-! ## `InfoSlot` (`info/info_def.rs`): timestamp `u32`, temperature `i8`
(tenths of a degree), humidity `u8` (tenths of a percent). -/

structure InfoSlot where
  timestamp : Nat
  temperature : Int
  humidity : Nat
deriving DecidableEq, Repr

/-- The field ranges guaranteed by the Rust types `u32`/`i8`/`u8`. -/
def InfoSlot.wf (s : InfoSlot) : Prop :=
  s.timestamp < 2^32 ∧ -128 ≤ s.temperature ∧ s.temperature ≤ 127 ∧ s.humidity < 256

instance (s : InfoSlot) : Decidable s.wf := by unfold InfoSlot.wf; infer_instance

/-- A stored record pairs a `u32` sequence number with a measurement slot. -/
structure StoredRecord where
  seq : Nat
  slot : InfoSlot
deriving DecidableEq, Repr

def StoredRecord.wf (r : StoredRecord) : Prop := r.seq < 2^32 ∧ r.slot.wf

/-! ## Record codec: the pure content of `InfoStorage::write_record`
(buffer construction) and `InfoStorage::read_record` (validation and
reconstruction).  Layout: magic(2) ‖ seq(4) ‖ timestamp(4) ‖ temp(1) ‖
hum(1) ‖ reserved(2) ‖ crc(2), all little-endian. -/

def recordBody (seq : Nat) (slot : InfoSlot) : List Nat :=
  u16le RECORD_MAGIC ++ u32le seq ++ u32le slot.timestamp ++
    [i8ToU8 slot.temperature, slot.humidity, 0, 0]

def recordEncode (seq : Nat) (slot : InfoSlot) : List Nat :=
  recordBody seq slot ++ u16le (crc16_ccitt (recordBody seq slot))

def recordDecode (buf : List Nat) : Option StoredRecord :=
  let magic := le2at buf 0
  if magic ≠ RECORD_MAGIC then none
  else
    let crcExpected := le2at buf 14
    let crcActual := crc16_ccitt (buf.take 14)
    if crcExpected ≠ crcActual then none
    else some ⟨le4at buf 2, ⟨le4at buf 6, u8ToI8 (buf.getD 10 0), buf.getD 11 0⟩⟩

/-! ### Basic CRC facts -/

theorem crc16Round_lt (c : Nat) : crc16Round c < 65536 := by
  unfold crc16Round
  split <;> exact Nat.lt_succ_of_le Nat.and_le_right

theorem crcRounds_succ_lt (n c : Nat) : crcRounds (n+1) c < 65536 := by
  induction n generalizing c with
  | zero => exact crc16Round_lt c
  | succ m ih => exact ih (crc16Round c)

theorem crc16Step_lt (c b : Nat) : crc16Step c b < 65536 :=
  crcRounds_succ_lt 7 _

theorem crc16_foldl_lt (l : List Nat) (c : Nat) (hc : c < 65536) :
    l.foldl crc16Step c < 65536 := by
  induction l generalizing c with
  | nil => exact hc
  | cons b t ih => exact ih _ (crc16Step_lt c b)

theorem crc16_ccitt_lt (data : List Nat) : crc16_ccitt data < 65536 :=
  crc16_foldl_lt data 0xFFFF (by norm_num)

/-! ### Record round-trip -/

theorem i8_u8_roundtrip (t : Int) (h1 : -128 ≤ t) (h2 : t ≤ 127) :
    u8ToI8 (i8ToU8 t) = t := by
  unfold u8ToI8 i8ToU8
  omega

theorem recordBody_length (seq : Nat) (slot : InfoSlot) :
    (recordBody seq slot).length = 14 := by
  simp [recordBody, u16le, u32le]

theorem recordEncode_take (seq : Nat) (slot : InfoSlot) :
    (recordEncode seq slot).take 14 = recordBody seq slot :=
  List.take_left' (recordBody_length seq slot)

theorem recordEncode_eq (seq : Nat) (slot : InfoSlot) :
    recordEncode seq slot =
      [0x52, 0x49, seq % 256, seq / 256 % 256, seq / 65536 % 256,
       seq / 16777216 % 256, slot.timestamp % 256, slot.timestamp / 256 % 256,
       slot.timestamp / 65536 % 256, slot.timestamp / 16777216 % 256,
       i8ToU8 slot.temperature, slot.humidity, 0, 0,
       crc16_ccitt (recordBody seq slot) % 256,
       crc16_ccitt (recordBody seq slot) / 256 % 256] := by
  simp [recordEncode, recordBody, u16le, u32le, RECORD_MAGIC]

theorem recordDecode_encode (seq : Nat) (slot : InfoSlot)
    (hseq : seq < 2^32) (hwf : slot.wf) :
    recordDecode (recordEncode seq slot) = some ⟨seq, slot⟩ := by
  obtain ⟨ts, temp, hum⟩ := slot
  simp only [InfoSlot.wf] at hwf
  obtain ⟨hts, ht1, ht2, hh⟩ := hwf
  have hc := crc16_ccitt_lt (recordBody seq ⟨ts, temp, hum⟩)
  unfold recordDecode
  rw [recordEncode_take, recordEncode_eq]
  simp only [le2at, le4at, List.getD_cons_zero, List.getD_cons_succ, RECORD_MAGIC]
  rw [if_neg (by norm_num), if_neg (by omega)]
  simp only [Option.some.injEq, StoredRecord.mk.injEq, InfoSlot.mk.injEq]
  exact ⟨by omega, by omega, i8_u8_roundtrip _ ht1 ht2, trivial⟩

/-- C3: for every `u32` sequence number and every in-range measurement slot,
decoding the 16-byte buffer produced by encoding returns exactly the
inputs: `decode (encode seq slot) = some (seq, slot)`. -/
theorem record_roundtrip (seq : Nat) (slot : InfoSlot)
    (hseq : seq < 2^32) (hwf : slot.wf) :
    recordDecode (recordEncode seq slot) = some ⟨seq, slot⟩ :=
  recordDecode_encode seq slot hseq hwf

/-! ## Ring state (`StorageState`) and the metadata codec
(`StorageState::to_bytes` / `StorageState::from_bytes`).
Layout: magic(4) ‖ version(2) ‖ reserved(2) ‖ generation(4) ‖ head(2) ‖
tail(2) ‖ count(2) ‖ next_seq(4) ‖ crc(2), little-endian, 24 bytes. -/

structure StorageState where
  head : Nat
  tail : Nat
  count : Nat
  next_seq : Nat
  generation : Nat
deriving DecidableEq, Repr

/-- `StorageState::default()` (all fields zero). -/
def StorageState.initial : StorageState := ⟨0, 0, 0, 0, 0⟩

/-- The field ranges guaranteed by the Rust types `u16`/`u32`. -/
def StorageState.wfFields (s : StorageState) : Prop :=
  s.head < 2^16 ∧ s.tail < 2^16 ∧ s.count < 2^16 ∧
    s.next_seq < 2^32 ∧ s.generation < 2^32

def metaBody (s : StorageState) : List Nat :=
  u32le META_MAGIC ++ u16le META_VERSION ++ u16le 0 ++ u32le s.generation ++
    u16le s.head ++ u16le s.tail ++ u16le s.count ++ u32le s.next_seq

def StorageState.to_bytes (s : StorageState) : List Nat :=
  metaBody s ++ u16le (crc16_ccitt (metaBody s))

def StorageState.from_bytes (bytes : List Nat) : Option StorageState :=
  if bytes.length ≠ META_RECORD_SIZE then none
  else if le4at bytes 0 ≠ META_MAGIC ∨ le2at bytes 4 ≠ META_VERSION then none
  else if le2at bytes 22 ≠ crc16_ccitt (bytes.take 22) then none
  else if le2at bytes 12 ≥ STORAGE_CAPACITY ∨ le2at bytes 14 ≥ STORAGE_CAPACITY ∨
      le2at bytes 16 > STORAGE_CAPACITY then none
  else some ⟨le2at bytes 12, le2at bytes 14, le2at bytes 16,
    le4at bytes 18, le4at bytes 8⟩

/-- The fold step of the copy-selection loop in `InfoStorage::load_meta`:
a chunk that decodes replaces the current best exactly when its generation
is strictly larger (or there is no current best). -/
def loadMetaBest (best : Option StorageState) (chunk : List Nat) :
    Option StorageState :=
  match StorageState.from_bytes chunk with
  | none => best
  | some state =>
    match best with
    | none => some state
    | some current =>
      if state.generation > current.generation then some state else some current

/-- `InfoStorage::load_meta`, restricted to its pure part: the selection
among the two decoded metadata copies. -/
def load_meta_pair (c0 c1 : List Nat) : Option StorageState :=
  loadMetaBest (loadMetaBest none c0) c1

theorem metaBody_length (s : StorageState) : (metaBody s).length = 22 := by
  simp [metaBody, u16le, u32le]

theorem to_bytes_take (s : StorageState) :
    (StorageState.to_bytes s).take 22 = metaBody s :=
  List.take_left' (metaBody_length s)

theorem to_bytes_eq (s : StorageState) :
    StorageState.to_bytes s =
      [0x41, 0x54, 0x45, 0x4D, 1, 0, 0, 0,
       s.generation % 256, s.generation / 256 % 256, s.generation / 65536 % 256,
       s.generation / 16777216 % 256, s.head % 256, s.head / 256 % 256,
       s.tail % 256, s.tail / 256 % 256, s.count % 256, s.count / 256 % 256,
       s.next_seq % 256, s.next_seq / 256 % 256, s.next_seq / 65536 % 256,
       s.next_seq / 16777216 % 256,
       crc16_ccitt (metaBody s) % 256, crc16_ccitt (metaBody s) / 256 % 256] := by
  simp [StorageState.to_bytes, metaBody, u16le, u32le, META_MAGIC, META_VERSION]

theorem to_bytes_length (s : StorageState) :
    (StorageState.to_bytes s).length = 24 := by
  rw [to_bytes_eq]; rfl

/-- C10: the metadata codec round-trips on every in-range ring state. -/
theorem meta_roundtrip (s : StorageState)
    (hh : s.head < STORAGE_CAPACITY) (ht : s.tail < STORAGE_CAPACITY)
    (hc : s.count ≤ STORAGE_CAPACITY) (hwf : s.wfFields) :
    StorageState.from_bytes (StorageState.to_bytes s) = some s := by
  obtain ⟨head, tail, count, next_seq, generation⟩ := s
  simp only [StorageState.wfFields] at hwf
  simp only [STORAGE_CAPACITY] at hh ht hc
  obtain ⟨h1, h2, h3, h4, h5⟩ := hwf
  have hcl := crc16_ccitt_lt (metaBody ⟨head, tail, count, next_seq, generation⟩)
  unfold StorageState.from_bytes
  rw [if_neg (by rw [to_bytes_length]; simp [META_RECORD_SIZE]),
    to_bytes_take, to_bytes_eq]
  simp only [le2at, le4at, List.getD_cons_zero, List.getD_cons_succ,
    META_MAGIC, META_VERSION, META_RECORD_SIZE, STORAGE_CAPACITY]
  rw [if_neg (by norm_num), if_neg (by omega), if_neg (by omega)]
  simp only [Option.some.injEq, StorageState.mk.injEq]
  refine ⟨by omega, by omega, by omega, by omega, by omega⟩

/-- C6: metadata decode rejects on magic/version/CRC mismatch or out-of-range
head/tail/count, and two-copy load returns the valid copy with the larger
generation (either position), the sole valid copy, or `none`. -/
theorem meta_decode_load_spec :
    (∀ bytes : List Nat, bytes.length = META_RECORD_SIZE →
      (le4at bytes 0 ≠ META_MAGIC ∨ le2at bytes 4 ≠ META_VERSION ∨
       le2at bytes 22 ≠ crc16_ccitt (bytes.take 22) ∨
       le2at bytes 12 ≥ STORAGE_CAPACITY ∨ le2at bytes 14 ≥ STORAGE_CAPACITY ∨
       le2at bytes 16 > STORAGE_CAPACITY) →
      StorageState.from_bytes bytes = none) ∧
    (∀ c0 c1 : List Nat,
      (StorageState.from_bytes c0 = none → StorageState.from_bytes c1 = none →
        load_meta_pair c0 c1 = none) ∧
      (∀ s0, StorageState.from_bytes c0 = some s0 →
        StorageState.from_bytes c1 = none → load_meta_pair c0 c1 = some s0) ∧
      (∀ s1, StorageState.from_bytes c0 = none →
        StorageState.from_bytes c1 = some s1 → load_meta_pair c0 c1 = some s1) ∧
      (∀ s0 s1, StorageState.from_bytes c0 = some s0 →
        StorageState.from_bytes c1 = some s1 →
        (s0.generation > s1.generation → load_meta_pair c0 c1 = some s0) ∧
        (s1.generation > s0.generation → load_meta_pair c0 c1 = some s1))) := by
  constructor
  · intro bytes hlen hbad
    unfold StorageState.from_bytes
    rw [if_neg (by omega)]
    split
    · rfl
    split
    · rfl
    split
    · rfl
    rename_i h1 h2 h3
    exact absurd hbad (by tauto)
  · intro c0 c1
    refine ⟨?_, ?_, ?_, ?_⟩
    · intro h0 h1
      simp [load_meta_pair, loadMetaBest, h0, h1]
    · intro s0 h0 h1
      simp [load_meta_pair, loadMetaBest, h0, h1]
    · intro s1 h0 h1
      simp [load_meta_pair, loadMetaBest, h0, h1]
    · intro s0 s1 h0 h1
      constructor
      · intro hgt
        simp only [load_meta_pair, loadMetaBest, h0, h1]
        rw [if_neg (by omega)]
      · intro hgt
        simp only [load_meta_pair, loadMetaBest, h0, h1]
        rw [if_pos hgt]

/-! ## The storage engine (`InfoStorage`).
`data` models the record file as `STORAGE_CAPACITY` buffers of
`RECORD_SIZE` bytes, `meta` the metadata file (two 24-byte copies),
`state` the in-memory ring state.  Fallible operations return the
(possibly updated) store together with an `Except` result, mirroring
`&mut self` receivers with `Result` return values. -/

inductive InfoStorageError where
  | ReadError
  | WriteError
  | RecordCorrupted
deriving DecidableEq, Repr

structure InfoStorage where
  data : List (List Nat)
  meta : List Nat
  state : StorageState
deriving DecidableEq, Repr

/-- `InfoStorage::advance`: `(index + steps) % STORAGE_CAPACITY`. -/
def InfoStorage.advance (index steps : Nat) : Nat :=
  (index + steps) % STORAGE_CAPACITY

def InfoStorage.write_record (st : InfoStorage) (index seq : Nat)
    (slot : InfoSlot) : InfoStorage :=
  { st with data := st.data.set index (recordEncode seq slot) }

def InfoStorage.read_record (st : InfoStorage) (index : Nat) :
    Option StoredRecord :=
  recordDecode (st.data.getD index [])

/-- `InfoStorage::write_meta`: the encoded state is written to both copies. -/
def InfoStorage.write_meta (st : InfoStorage) : InfoStorage :=
  { st with meta := st.state.to_bytes ++ st.state.to_bytes }

def InfoStorage.enqueue (st : InfoStorage) (info : InfoSlot) : InfoStorage :=
  let seq := st.state.next_seq
  let index := st.state.tail
  let st1 := st.write_record index seq info
  let s := st1.state
  let s1 := if s.count = STORAGE_CAPACITY
    then { s with head := InfoStorage.advance s.head 1 }
    else { s with count := min (s.count + 1) 65535 }
  InfoStorage.write_meta { st1 with state :=
    { s1 with
      tail := InfoStorage.advance s1.tail 1,
      next_seq := (s1.next_seq + 1) % 2^32,
      generation := (s1.generation + 1) % 2^32 } }

def InfoStorage.dequeue (st : InfoStorage) :
    InfoStorage × Except InfoStorageError InfoSlot :=
  if st.state.count = 0 then (st, .error .ReadError)
  else
    match st.read_record st.state.head with
    | none => (st, .error .RecordCorrupted)
    | some record =>
      let s := st.state
      let head1 := InfoStorage.advance s.head 1
      let count1 := s.count - 1
      (InfoStorage.write_meta { st with state :=
        { head := head1, count := count1,
          tail := if count1 = 0 then head1 else s.tail,
          next_seq := s.next_seq,
          generation := (s.generation + 1) % 2^32 } }, .ok record.slot)

/-- `InfoStorage::scan_ring`, specialised to returning the walked records in
order (the visitor is applied to exactly this sequence). -/
def InfoStorage.scanFrom (st : InfoStorage) :
    Nat → Nat → Except InfoStorageError (List StoredRecord)
  | _, 0 => .ok []
  | index, n+1 =>
    match st.read_record index with
    | none => .error .RecordCorrupted
    | some r =>
      match st.scanFrom (InfoStorage.advance index 1) n with
      | .error e => .error e
      | .ok l => .ok (r :: l)

def InfoStorage.collect_records (st : InfoStorage) :
    Except InfoStorageError (List StoredRecord) :=
  st.scanFrom st.state.head st.state.count

/-- `InfoStorage::load_info`: the scan visitor overwrites `found` on every
timestamp match, expressed as the equivalent left fold. -/
def InfoStorage.load_info (st : InfoStorage) (timestamp : Nat) :
    Except InfoStorageError (Option InfoSlot) :=
  (st.collect_records).map (fun l =>
    l.foldl (fun found r =>
      if r.slot.timestamp = timestamp then some r.slot else found) none)

def zeroedData : List (List Nat) :=
  List.replicate STORAGE_CAPACITY (List.replicate RECORD_SIZE 0)

def InfoStorage.zero_data_file (st : InfoStorage) : InfoStorage :=
  { st with data := zeroedData }

/-- The write loop shared by `rewrite_records` and `full_scan_recovery`:
records written sequentially from physical index `start`. -/
def InfoStorage.write_records_from (st : InfoStorage) (start : Nat) :
    List StoredRecord → InfoStorage
  | [] => st
  | r :: rest =>
    (st.write_record start r.seq r.slot).write_records_from (start + 1) rest

def InfoStorage.rewrite_records (st : InfoStorage)
    (records : List StoredRecord) :
    InfoStorage × Except InfoStorageError Unit :=
  if records.length > STORAGE_CAPACITY then (st, .error .WriteError)
  else
    let st1 := (st.zero_data_file).write_records_from 0 records
    (InfoStorage.write_meta { st1 with state :=
      { head := 0,
        count := records.length,
        tail := InfoStorage.advance 0 records.length,
        next_seq := match records.getLast? with
          | some r => (r.seq + 1) % 2^32
          | none => st.state.next_seq,
        generation := (st.state.generation + 1) % 2^32 } }, .ok ())

def InfoStorage.erase_info (st : InfoStorage) (timestamp : Nat) :
    InfoStorage × Except InfoStorageError Unit :=
  match st.collect_records with
  | .error e => (st, .error e)
  | .ok records =>
    let retained := records.filter (fun r => r.slot.timestamp != timestamp)
    if retained.length = records.length then (st, .ok ())
    else st.rewrite_records retained

def InfoStorage.clear_range (st : InfoStorage) (start_time end_time : Nat) :
    InfoStorage × Except InfoStorageError Unit :=
  match st.collect_records with
  | .error e => (st, .error e)
  | .ok records =>
    st.rewrite_records (records.filter (fun r =>
      decide (r.slot.timestamp < start_time) ||
      decide (end_time < r.slot.timestamp)))

def InfoStorage.clear_storage (st : InfoStorage) : InfoStorage :=
  InfoStorage.write_meta { st.zero_data_file with state := StorageState.initial }

/-- `sort_by_key(seq)` (stable) followed by the defensive truncation to the
newest `STORAGE_CAPACITY` entries. -/
def sortTruncate (records : List StoredRecord) : List StoredRecord :=
  let sorted := records.mergeSort (fun a b => a.seq ≤ b.seq)
  if sorted.length > STORAGE_CAPACITY
  then sorted.drop (sorted.length - STORAGE_CAPACITY) else sorted

def InfoStorage.full_scan_recovery (st : InfoStorage) : InfoStorage :=
  let all_records := (List.range STORAGE_CAPACITY).filterMap st.read_record
  if all_records.isEmpty then
    InfoStorage.write_meta { st with state := StorageState.initial }
  else
    let sorted := sortTruncate all_records
    let st1 := (st.zero_data_file).write_records_from 0 sorted
    InfoStorage.write_meta { st1 with state :=
      { head := 0, count := sorted.length,
        tail := InfoStorage.advance 0 sorted.length,
        next_seq := match sorted.getLast? with
          | some r => (r.seq + 1) % 2^32
          | none => 0,
        generation := (st.state.generation + 1) % 2^32 } }

/-- A freshly initialised store: zeroed data file, zeroed metadata file
(`write_empty_meta`), default ring state. -/
def emptyStorage : InfoStorage :=
  { data := zeroedData,
    meta := List.replicate (META_RECORD_SIZE * 2) 0,
    state := StorageState.initial }

instance {ε α : Type} [DecidableEq ε] [DecidableEq α] :
    DecidableEq (Except ε α) := fun a b =>
  match a, b with
  | .error e1, .error e2 => decidable_of_iff (e1 = e2) (by simp)
  | .error _, .ok _ => .isFalse (by simp)
  | .ok _, .error _ => .isFalse (by simp)
  | .ok a1, .ok a2 => decidable_of_iff (a1 = a2) (by simp)

/-! ## Dequeue (C5, C9) -/

/-- C5: `dequeue` on an empty store fails with `ReadError`; on a store whose
head record decodes it returns that slot, advances head, decrements count,
resets `tail = head` exactly when the new count is zero, bumps the
generation and persists the metadata. -/
theorem dequeue_spec (st : InfoStorage) :
    (st.state.count = 0 → st.dequeue = (st, .error .ReadError)) ∧
    (∀ record, st.state.count ≠ 0 →
      st.read_record st.state.head = some record →
      (st.dequeue).2 = .ok record.slot ∧
      (st.dequeue).1.state.head = InfoStorage.advance st.state.head 1 ∧
      (st.dequeue).1.state.count = st.state.count - 1 ∧
      ((st.dequeue).1.state.tail =
        if st.state.count - 1 = 0 then InfoStorage.advance st.state.head 1
        else st.state.tail) ∧
      (st.dequeue).1.state.next_seq = st.state.next_seq ∧
      (st.dequeue).1.state.generation = (st.state.generation + 1) % 2^32 ∧
      (st.dequeue).1.meta =
        (st.dequeue).1.state.to_bytes ++ (st.dequeue).1.state.to_bytes ∧
      (st.dequeue).1.data = st.data) := by
  constructor
  · intro h
    simp [InfoStorage.dequeue, h]
  · intro record h hr
    simp [InfoStorage.dequeue, h, hr, InfoStorage.write_meta]

/-- C9: whenever `dequeue` returns an error (`ReadError` on an empty store,
`RecordCorrupted` when the head record fails to decode), the store — ring
state, data and metadata bytes — is completely unchanged. -/
theorem dequeue_error_preserves (st : InfoStorage) (e : InfoStorageError)
    (h : (st.dequeue).2 = .error e) :
    (st.dequeue).1 = st ∧
    (e = .ReadError ∧ st.state.count = 0 ∨
     e = .RecordCorrupted ∧ st.state.count ≠ 0 ∧
       st.read_record st.state.head = none) := by
  unfold InfoStorage.dequeue at h ⊢
  by_cases h0 : st.state.count = 0
  · rw [if_pos h0] at h ⊢
    refine ⟨rfl, Or.inl ⟨?_, h0⟩⟩
    have h' : Except.error (α := InfoSlot) InfoStorageError.ReadError =
        Except.error e := h
    exact (Except.error.inj h').symm
  · rw [if_neg h0] at h ⊢
    cases hr : st.read_record st.state.head with
    | none =>
      rw [hr] at h
      refine ⟨rfl, Or.inr ⟨?_, h0, rfl⟩⟩
      have h' : Except.error (α := InfoSlot) InfoStorageError.RecordCorrupted =
          Except.error e := h
      exact (Except.error.inj h').symm
    | some record =>
      rw [hr] at h
      simp at h

/-! ## `load_info` (C1): the visitor overwrites on every match, so the
*last* matching live record wins, not the first. -/

def c1SlotA : InfoSlot := ⟨100, 10, 20⟩
def c1SlotB : InfoSlot := ⟨100, 30, 40⟩

/-- A store holding two live records with the *same* timestamp 100 but
different payloads, oldest first. -/
def c1Store : InfoStorage :=
  { data := (zeroedData.set 0 (recordEncode 0 c1SlotA)).set 1
      (recordEncode 1 c1SlotB),
    meta := List.replicate (META_RECORD_SIZE * 2) 0,
    state := ⟨0, 2, 2, 2, 2⟩ }

set_option maxRecDepth 100000 in
/-- C1 counterexample: the live records of `c1Store` are, oldest to newest,
`c1SlotA` then `c1SlotB`, both with timestamp 100; `load_info 100` returns
the *newest* (`c1SlotB`), not the first-scanned (`c1SlotA`). -/
theorem load_info_first_counterexample :
    c1Store.collect_records = .ok [⟨0, c1SlotA⟩, ⟨1, c1SlotB⟩] ∧
    c1SlotA.timestamp = 100 ∧ c1SlotB.timestamp = 100 ∧
    c1Store.load_info 100 = .ok (some c1SlotB) ∧
    c1Store.load_info 100 ≠ .ok (some c1SlotA) := by
  refine ⟨by decide, rfl, rfl, by decide, by decide⟩

theorem foldl_if_last (t : Nat) (l : List StoredRecord) :
    l.foldl (fun found r =>
        if r.slot.timestamp = t then some r.slot else found) none =
      ((l.filter (fun r => decide (r.slot.timestamp = t))).getLast?).map
        (fun r => r.slot) := by
  induction l using List.reverseRecOn with
  | nil => rfl
  | append_singleton l r ih =>
    rw [List.foldl_append]
    by_cases hp : r.slot.timestamp = t
    · simp [List.filter_append, hp, ih]
    · simp [List.filter_append, hp, ih]

/-- C1 (amended): when the live records scan cleanly, `load_info t` returns
`some` of the *last* (newest) live record whose timestamp equals `t`, and
`none` when no live record matches. -/
theorem load_info_last_match (st : InfoStorage) (records : List StoredRecord)
    (t : Nat) (h : st.collect_records = .ok records) :
    st.load_info t =
      .ok (((records.filter (fun r => decide (r.slot.timestamp = t))).getLast?).map
        (fun r => r.slot)) := by
  unfold InfoStorage.load_info
  rw [h]
  simp only [Except.map]
  rw [foldl_if_last]

/-! ## Ring invariants (C8) -/

/-- The ring-state invariants stated in the spec: in-range head/tail/count
and `tail = (head + count) mod CAPACITY`. -/
def ringInv (s : StorageState) : Prop :=
  s.head < STORAGE_CAPACITY ∧ s.tail < STORAGE_CAPACITY ∧
    s.count ≤ STORAGE_CAPACITY ∧
    s.tail = (s.head + s.count) % STORAGE_CAPACITY

/-- The ring state produced by `enqueue`, in closed form. -/
theorem enqueue_state (st : InfoStorage) (info : InfoSlot) :
    (st.enqueue info).state =
      if st.state.count = STORAGE_CAPACITY then
        { head := InfoStorage.advance st.state.head 1,
          tail := InfoStorage.advance st.state.tail 1,
          count := st.state.count,
          next_seq := (st.state.next_seq + 1) % 2^32,
          generation := (st.state.generation + 1) % 2^32 }
      else
        { head := st.state.head,
          tail := InfoStorage.advance st.state.tail 1,
          count := min (st.state.count + 1) 65535,
          next_seq := (st.state.next_seq + 1) % 2^32,
          generation := (st.state.generation + 1) % 2^32 } := by
  unfold InfoStorage.enqueue InfoStorage.write_meta InfoStorage.write_record
  dsimp only
  by_cases hc : st.state.count = STORAGE_CAPACITY
  · rw [if_pos hc, if_pos hc]
  · rw [if_neg hc, if_neg hc]

theorem enqueue_ringInv (st : InfoStorage) (info : InfoSlot)
    (h : ringInv st.state) : ringInv (st.enqueue info).state := by
  obtain ⟨h1, h2, h3, h4⟩ := h
  rw [ringInv, enqueue_state]
  unfold InfoStorage.advance at *
  simp only [STORAGE_CAPACITY] at *
  split
  · dsimp only; omega
  · dsimp only; omega

/-- The store returned by `dequeue` is either unchanged or carries the
advanced ring state. -/
theorem dequeue_fst_state (st : InfoStorage) :
    (st.dequeue).1 = st ∨
    (st.state.count ≠ 0 ∧ (st.dequeue).1.state =
      { head := InfoStorage.advance st.state.head 1,
        tail := if st.state.count - 1 = 0 then InfoStorage.advance st.state.head 1
          else st.state.tail,
        count := st.state.count - 1,
        next_seq := st.state.next_seq,
        generation := (st.state.generation + 1) % 2^32 }) := by
  unfold InfoStorage.dequeue
  by_cases h0 : st.state.count = 0
  · rw [if_pos h0]; exact Or.inl rfl
  · rw [if_neg h0]
    cases hr : st.read_record st.state.head
    · exact Or.inl rfl
    · exact Or.inr ⟨h0, rfl⟩

theorem dequeue_ringInv (st : InfoStorage)
    (h : ringInv st.state) : ringInv (st.dequeue).1.state := by
  rcases dequeue_fst_state st with heq | ⟨h0, heq⟩
  · rw [heq]; exact h
  · obtain ⟨h1, h2, h3, h4⟩ := h
    rw [ringInv, heq]
    unfold InfoStorage.advance at *
    simp only [STORAGE_CAPACITY] at *
    split <;> omega

/-- The store returned by `rewrite_records` is either unchanged (capacity
overflow) or compacted from index 0. -/
theorem rewrite_records_fst_state (st : InfoStorage)
    (records : List StoredRecord) :
    (st.rewrite_records records).1 = st ∨
    (records.length ≤ STORAGE_CAPACITY ∧
     (st.rewrite_records records).1.state.head = 0 ∧
     (st.rewrite_records records).1.state.tail =
       records.length % STORAGE_CAPACITY ∧
     (st.rewrite_records records).1.state.count = records.length) := by
  unfold InfoStorage.rewrite_records
  by_cases h : records.length > STORAGE_CAPACITY
  · rw [if_pos h]; exact Or.inl rfl
  · rw [if_neg h]
    exact Or.inr ⟨by omega, rfl,
      by simp [InfoStorage.write_meta, InfoStorage.advance], rfl⟩

theorem rewrite_records_ringInv (st : InfoStorage) (records : List StoredRecord)
    (h : ringInv st.state) : ringInv (st.rewrite_records records).1.state := by
  rcases rewrite_records_fst_state st records with heq | ⟨hle, e1, e2, e3⟩
  · rw [heq]; exact h
  · rw [ringInv, e1, e2, e3]
    simp only [STORAGE_CAPACITY] at *
    omega

theorem erase_info_ringInv (st : InfoStorage) (t : Nat)
    (h : ringInv st.state) : ringInv (st.erase_info t).1.state := by
  unfold InfoStorage.erase_info
  cases hc : st.collect_records with
  | error e => exact h
  | ok records =>
    dsimp only
    split
    · exact h
    · exact rewrite_records_ringInv st _ h

theorem clear_range_ringInv (st : InfoStorage) (a b : Nat)
    (h : ringInv st.state) : ringInv (st.clear_range a b).1.state := by
  unfold InfoStorage.clear_range
  cases hc : st.collect_records with
  | error e => exact h
  | ok records => exact rewrite_records_ringInv st _ h

theorem ringInv_initial : ringInv StorageState.initial := by
  unfold ringInv StorageState.initial STORAGE_CAPACITY
  norm_num

theorem clear_storage_ringInv (st : InfoStorage) :
    ringInv st.clear_storage.state :=
  ringInv_initial

theorem sortTruncate_length_le (l : List StoredRecord)
    (h : l.length ≤ STORAGE_CAPACITY) :
    (sortTruncate l).length ≤ STORAGE_CAPACITY := by
  unfold sortTruncate
  dsimp only
  split <;> simp_all [List.length_mergeSort, List.length_drop]

theorem full_scan_recovery_ringInv (st : InfoStorage)
    (h : ringInv st.state) : ringInv st.full_scan_recovery.state := by
  unfold InfoStorage.full_scan_recovery
  dsimp only
  split
  · exact ringInv_initial
  · have hlen : ((List.range STORAGE_CAPACITY).filterMap st.read_record).length ≤
        STORAGE_CAPACITY := by
      calc ((List.range STORAGE_CAPACITY).filterMap st.read_record).length
          ≤ (List.range STORAGE_CAPACITY).length := List.length_filterMap_le _ _
        _ = STORAGE_CAPACITY := List.length_range _
    have hst := sortTruncate_length_le _ hlen
    rw [ringInv]
    unfold InfoStorage.write_meta InfoStorage.advance
    dsimp only
    simp only [STORAGE_CAPACITY] at *
    exact ⟨by omega, by omega, by omega, trivial⟩

/-- The states reachable from a freshly initialised store through the
public mutating operations. -/
inductive Reachable : InfoStorage → Prop where
  | init : Reachable emptyStorage
  | enqueue {st : InfoStorage} (info : InfoSlot) :
      Reachable st → Reachable (st.enqueue info)
  | dequeue {st : InfoStorage} :
      Reachable st → Reachable (st.dequeue).1
  | erase_info {st : InfoStorage} (t : Nat) :
      Reachable st → Reachable (st.erase_info t).1
  | clear_range {st : InfoStorage} (a b : Nat) :
      Reachable st → Reachable (st.clear_range a b).1
  | clear_storage {st : InfoStorage} :
      Reachable st → Reachable st.clear_storage
  | rewrite_records {st : InfoStorage} (records : List StoredRecord) :
      Reachable st → Reachable (st.rewrite_records records).1
  | full_scan_recovery {st : InfoStorage} :
      Reachable st → Reachable st.full_scan_recovery

/-- C8: every mutating operation preserves the ring invariants; hence every
state reachable from the default empty state satisfies them. -/
theorem reachable_ringInv (st : InfoStorage) (h : Reachable st) :
    ringInv st.state := by
  induction h with
  | init => exact ringInv_initial
  | enqueue info _ ih => exact enqueue_ringInv _ info ih
  | dequeue _ ih => exact dequeue_ringInv _ ih
  | erase_info t _ ih => exact erase_info_ringInv _ t ih
  | clear_range a b _ ih => exact clear_range_ringInv _ a b ih
  | clear_storage _ _ => exact clear_storage_ringInv _
  | rewrite_records records _ ih => exact rewrite_records_ringInv _ records ih
  | full_scan_recovery _ ih => exact full_scan_recovery_ringInv _ ih

/-! ## Scan and rewrite machinery (towards C2 and C4) -/

theorem getD_lt_256 (buf : List Nat) (h : ∀ b ∈ buf, b < 256) (i : Nat) :
    buf.getD i 0 < 256 := by
  rw [List.getD_eq_getElem?_getD]
  cases hh : buf[i]? with
  | none => simp
  | some b =>
    simp only [Option.getD_some]
    exact h b (List.getElem?_mem hh)

/-- Any record produced by decoding a buffer of bytes has in-range fields. -/
theorem recordDecode_wf (buf : List Nat) (hb : ∀ b ∈ buf, b < 256)
    (r : StoredRecord) (h : recordDecode buf = some r) : r.wf := by
  have hB := getD_lt_256 buf hb
  unfold recordDecode at h
  dsimp only at h
  split at h
  · simp at h
  split at h
  · simp at h
  obtain rfl : (⟨le4at buf 2, ⟨le4at buf 6, u8ToI8 (buf.getD 10 0),
      buf.getD 11 0⟩⟩ : StoredRecord) = r := by
    injection h
  refine ⟨?_, ?_, ?_, ?_, ?_⟩
  · have h1 := hB 2; have h2 := hB 3; have h3 := hB 4; have h4 := hB 5
    show le4at buf 2 < 2^32
    unfold le4at
    norm_num [List.getD_eq_getElem?_getD] at h1 h2 h3 h4 ⊢
    omega
  · have h1 := hB 6; have h2 := hB 7; have h3 := hB 8; have h4 := hB 9
    show le4at buf 6 < 2^32
    unfold le4at
    norm_num [List.getD_eq_getElem?_getD] at h1 h2 h3 h4 ⊢
    omega
  · show -128 ≤ u8ToI8 (buf.getD 10 0)
    unfold u8ToI8
    split <;> omega
  · show u8ToI8 (buf.getD 10 0) ≤ 127
    unfold u8ToI8
    split <;> omega
  · exact hB 11

theorem read_record_wf (st : InfoStorage)
    (hdata : ∀ buf ∈ st.data, ∀ b ∈ buf, b < 256) (idx : Nat)
    (r : StoredRecord) (h : st.read_record idx = some r) : r.wf := by
  unfold InfoStorage.read_record at h
  refine recordDecode_wf _ ?_ r h
  rw [List.getD_eq_getElem?_getD]
  cases hh : st.data[idx]? with
  | none => simp
  | some buf =>
    simp only [Option.getD_some]
    exact hdata buf (List.getElem?_mem hh)

theorem write_record_data_length (st : InfoStorage) (i s : Nat)
    (slot : InfoSlot) : (st.write_record i s slot).data.length = st.data.length := by
  unfold InfoStorage.write_record
  simp [List.length_set]

theorem write_records_from_length (records : List StoredRecord) :
    ∀ (st : InfoStorage) (start : Nat),
      (st.write_records_from start records).data.length = st.data.length := by
  induction records with
  | nil => intro st start; rfl
  | cons r rest ih =>
    intro st start
    rw [InfoStorage.write_records_from, ih, write_record_data_length]

/-- Writes at indices `≥ start` do not disturb bytes below `start`. -/
theorem write_records_from_getD_lt (records : List StoredRecord) :
    ∀ (st : InfoStorage) (start i : Nat), i < start →
      (st.write_records_from start records).data.getD i [] =
        st.data.getD i [] := by
  induction records with
  | nil => intro st start i _; rfl
  | cons r rest ih =>
    intro st start i h
    rw [InfoStorage.write_records_from, ih _ _ _ (by omega)]
    unfold InfoStorage.write_record
    dsimp only
    rw [List.getD_eq_getElem?_getD, List.getD_eq_getElem?_getD,
      List.getElem?_set_ne (by omega)]

/-- After the sequential write loop, slot `start + k` holds the encoding of
the `k`-th record. -/
theorem write_records_from_getD (records : List StoredRecord) :
    ∀ (st : InfoStorage) (start k : Nat) (hk : k < records.length),
      start + records.length ≤ st.data.length →
      (st.write_records_from start records).data.getD (start + k) [] =
        recordEncode (records.get ⟨k, hk⟩).seq (records.get ⟨k, hk⟩).slot := by
  induction records with
  | nil =>
    intro st start k hk
    exact absurd hk (by simp)
  | cons r rest ih =>
    intro st start k hk hlen
    rw [InfoStorage.write_records_from]
    cases k with
    | zero =>
      simp only [Nat.add_zero]
      rw [write_records_from_getD_lt rest _ (start + 1) start (by omega)]
      unfold InfoStorage.write_record
      dsimp only
      have hs : start < st.data.length := by
        simp only [List.length_cons] at hlen; omega
      rw [List.getD_eq_getElem?_getD, List.getElem?_set_self hs]
      rfl
    | succ k' =>
      have he : start + (k' + 1) = (start + 1) + k' := by omega
      rw [he, ih _ (start + 1) k' (by simpa using hk)
        (by rw [write_record_data_length]
            simp only [List.length_cons] at hlen; omega)]
      rfl

/-- `scan_ring` walk: if the `l.length` reads starting at `start` (mod
capacity) all succeed with the records of `l`, the scan returns `l`. -/
theorem scanFrom_ok (st : InfoStorage) (l : List StoredRecord) :
    ∀ start : Nat,
      (∀ k (hk : k < l.length),
        st.read_record ((start + k) % STORAGE_CAPACITY) = some (l.get ⟨k, hk⟩)) →
      st.scanFrom (start % STORAGE_CAPACITY) l.length = .ok l := by
  induction l with
  | nil => intro start _; rfl
  | cons r rest ih =>
    intro start h
    have h0 := h 0 (by simp)
    rw [Nat.add_zero] at h0
    have hadv : InfoStorage.advance (start % STORAGE_CAPACITY) 1 =
        (start + 1) % STORAGE_CAPACITY := by
      unfold InfoStorage.advance
      simp only [STORAGE_CAPACITY]
      omega
    have hrest : st.scanFrom ((start + 1) % STORAGE_CAPACITY) rest.length =
        .ok rest := by
      refine ih (start + 1) (fun k hk => ?_)
      have := h (k + 1) (by simpa using Nat.succ_lt_succ hk)
      rwa [show start + (k + 1) = start + 1 + k by omega] at this
    rw [show (r :: rest).length = rest.length + 1 from rfl,
      InfoStorage.scanFrom, h0, hadv, hrest]
    rfl

/-- A compacted store (records at physical indices `0..l.length`) scans
back exactly those records. -/
theorem collect_records_compacted (st : InfoStorage) (l : List StoredRecord)
    (hhead : st.state.head = 0) (hcount : st.state.count = l.length)
    (hlen : l.length ≤ STORAGE_CAPACITY)
    (hread : ∀ k (hk : k < l.length), st.read_record k = some (l.get ⟨k, hk⟩)) :
    st.collect_records = .ok l := by
  unfold InfoStorage.collect_records
  rw [hhead, hcount]
  have h := scanFrom_ok st l 0 (fun k hk => by
    rw [Nat.zero_add, Nat.mod_eq_of_lt (by omega : k < STORAGE_CAPACITY)]
    exact hread k hk)
  rwa [Nat.zero_mod] at h

theorem sortTruncate_eq_of_le (l : List StoredRecord)
    (h : l.length ≤ STORAGE_CAPACITY) :
    sortTruncate l = l.mergeSort (fun a b => a.seq ≤ b.seq) := by
  unfold sortTruncate
  dsimp only
  rw [if_neg (by simp only [List.length_mergeSort]; omega)]

theorem sortTruncate_mem (l : List StoredRecord) (r : StoredRecord)
    (h : r ∈ sortTruncate l) : r ∈ l := by
  unfold sortTruncate at h
  dsimp only at h
  split at h
  · exact (List.mergeSort_perm l _).mem_iff.mp (List.mem_of_mem_drop h)
  · exact (List.mergeSort_perm l _).mem_iff.mp h

theorem sortTruncate_pairwise (l : List StoredRecord) :
    (sortTruncate l).Pairwise (fun a b => a.seq ≤ b.seq) := by
  have hs : (l.mergeSort (fun a b => a.seq ≤ b.seq)).Pairwise
      (fun a b => (a.seq ≤ b.seq : Bool) = true) :=
    List.sorted_mergeSort (by intro a b c; simp only [decide_eq_true_eq]; omega)
      (by intro a b; simp only [Bool.or_eq_true, decide_eq_true_eq]; omega) l
  have hs' : (l.mergeSort (fun a b => a.seq ≤ b.seq)).Pairwise
      (fun a b => a.seq ≤ b.seq) :=
    hs.imp (by intro a b hab; simpa using hab)
  unfold sortTruncate
  dsimp only
  split
  · exact hs'.sublist (List.drop_sublist _ _)
  · exact hs'

/-- Every record surviving a full scan decodes from some physical slot. -/
theorem filterMap_read_wf (st : InfoStorage)
    (hdata : ∀ buf ∈ st.data, ∀ b ∈ buf, b < 256) (r : StoredRecord)
    (h : r ∈ (List.range STORAGE_CAPACITY).filterMap st.read_record) : r.wf := by
  obtain ⟨idx, _, hread⟩ := List.mem_filterMap.mp h
  exact read_record_wf st hdata idx r hread

/-- C2: full-scan recovery decodes all physical slots, keeps the survivors,
sorts them by sequence number (stably, ascending), truncates defensively to
`STORAGE_CAPACITY`, rewrites them compacted from index 0 and rebuilds the
ring state (`head = 0`, `count` = survivors, `tail = count mod CAPACITY`,
`next_seq` = last seq + 1, bumped generation); with no survivors it resets
to the default empty state. -/
theorem full_scan_recovery_spec (st : InfoStorage)
    (hdata : ∀ buf ∈ st.data, ∀ b ∈ buf, b < 256) :
    ((List.range STORAGE_CAPACITY).filterMap st.read_record = [] →
      st.full_scan_recovery.state = StorageState.initial ∧
      st.full_scan_recovery.meta =
        StorageState.initial.to_bytes ++ StorageState.initial.to_bytes) ∧
    (∀ all, all = (List.range STORAGE_CAPACITY).filterMap st.read_record →
      all ≠ [] →
      st.full_scan_recovery.state.head = 0 ∧
      st.full_scan_recovery.state.count = (sortTruncate all).length ∧
      st.full_scan_recovery.state.tail =
        (sortTruncate all).length % STORAGE_CAPACITY ∧
      (∀ r, (sortTruncate all).getLast? = some r →
        st.full_scan_recovery.state.next_seq = (r.seq + 1) % 2^32) ∧
      st.full_scan_recovery.state.generation =
        (st.state.generation + 1) % 2^32 ∧
      st.full_scan_recovery.collect_records = .ok (sortTruncate all) ∧
      (sortTruncate all).Pairwise (fun a b => a.seq ≤ b.seq) ∧
      (sortTruncate all).Perm all) := by
  constructor
  · intro hempty
    unfold InfoStorage.full_scan_recovery
    rw [hempty]
    exact ⟨rfl, rfl⟩
  · intro all hall hne
    subst hall
    have hAlen : ((List.range STORAGE_CAPACITY).filterMap st.read_record).length ≤
        STORAGE_CAPACITY := by
      calc ((List.range STORAGE_CAPACITY).filterMap st.read_record).length
          ≤ (List.range STORAGE_CAPACITY).length := List.length_filterMap_le _ _
        _ = STORAGE_CAPACITY := List.length_range _
    have hFlen := sortTruncate_length_le _ hAlen
    have hcond : ¬((List.range STORAGE_CAPACITY).filterMap
        st.read_record).isEmpty = true := by
      simpa [List.isEmpty_iff] using hne
    unfold InfoStorage.full_scan_recovery InfoStorage.write_meta
    dsimp only
    rw [if_neg hcond]
    refine ⟨rfl, rfl, ?_, ?_, rfl, ?_, sortTruncate_pairwise _, ?_⟩
    · show InfoStorage.advance 0
        (sortTruncate ((List.range STORAGE_CAPACITY).filterMap
          st.read_record)).length = _
      simp [InfoStorage.advance]
    · intro r hr
      show (match (sortTruncate ((List.range STORAGE_CAPACITY).filterMap
          st.read_record)).getLast? with
        | some r' => (r'.seq + 1) % 2^32
        | none => 0) = (r.seq + 1) % 2^32
      rw [hr]
    · refine collect_records_compacted _ _ rfl rfl hFlen ?_
      intro k hk
      show recordDecode
        (((st.zero_data_file).write_records_from 0
          (sortTruncate ((List.range STORAGE_CAPACITY).filterMap
            st.read_record))).data.getD k []) = _
      have h1 := write_records_from_getD _ (st.zero_data_file) 0 k hk
        (by simp only [InfoStorage.zero_data_file, zeroedData,
              List.length_replicate]
            omega)
      rw [Nat.zero_add] at h1
      rw [h1]
      have hwf : ((sortTruncate ((List.range STORAGE_CAPACITY).filterMap
          st.read_record)).get ⟨k, hk⟩).wf :=
        filterMap_read_wf st hdata _
          (sortTruncate_mem _ _ (List.get_mem _ _ hk))
      exact recordDecode_encode _ _ hwf.1 hwf.2
    · rw [sortTruncate_eq_of_le _ hAlen]
      exact List.mergeSort_perm _ _

/-! ## Enqueue at capacity and the FIFO-with-eviction scenario (C4) -/

/-- Timestamps 1..=301, enqueued in order. -/
def scenarioSlots : List InfoSlot := (List.range 301).map (fun i => ⟨i + 1, 0, 0⟩)

def scenarioStore : InfoStorage := scenarioSlots.foldl InfoStorage.enqueue emptyStorage

/-- The 300 surviving records: sequence numbers 1..=300 paired with
timestamps 2..=301 in ascending order. -/
def scenarioExpected : List StoredRecord :=
  (List.range 300).map (fun k => ⟨k + 1, ⟨k + 2, 0, 0⟩⟩)

set_option maxRecDepth 1000000 in
set_option maxHeartbeats 16000000 in
/-- C4: on a full ring, `enqueue` writes at `tail`, advances `head` (dropping
the oldest silently), keeps `count = CAPACITY`, advances `tail`, and bumps
`next_seq`; enqueueing timestamps 1..=301 into an empty 300-slot store
leaves exactly timestamps 2..=301 live, in ascending FIFO order. -/
theorem enqueue_full_fifo :
    (∀ (st : InfoStorage) (info : InfoSlot),
      st.state.count = STORAGE_CAPACITY →
      (st.enqueue info).data =
        st.data.set st.state.tail (recordEncode st.state.next_seq info) ∧
      (st.enqueue info).state.head = InfoStorage.advance st.state.head 1 ∧
      (st.enqueue info).state.count = STORAGE_CAPACITY ∧
      (st.enqueue info).state.tail = InfoStorage.advance st.state.tail 1 ∧
      (st.enqueue info).state.next_seq = (st.state.next_seq + 1) % 2^32) ∧
    scenarioStore.collect_records = .ok scenarioExpected ∧
    scenarioExpected.length = 300 ∧
    scenarioExpected.map (fun r => r.slot.timestamp) =
      (List.range 300).map (fun k => k + 2) := by
  refine ⟨?_, by decide, by decide, by decide⟩
  intro st info h
  have he := enqueue_state st info
  rw [if_pos h] at he
  refine ⟨rfl, ?_, ?_, ?_, ?_⟩ <;> rw [he] <;> first | rfl | exact h

/-! ## CRC-16 is linear over GF(2) (towards C7) -/

theorem nat_xor_left_comm (a b c : Nat) : a ^^^ (b ^^^ c) = b ^^^ (a ^^^ c) := by
  rw [← Nat.xor_assoc, Nat.xor_comm a b, Nat.xor_assoc]

theorem shiftLeft_xor_distrib (a b n : Nat) :
    (a ^^^ b) <<< n = a <<< n ^^^ b <<< n := by
  apply Nat.eq_of_testBit_eq
  intro i
  simp only [Nat.testBit_shiftLeft, Nat.testBit_xor]
  cases h : decide (i ≥ n) <;> simp

theorem and_mask (x : Nat) : x &&& 32768 = (x.testBit 15).toNat * 32768 := by
  have h := Nat.and_two_pow x 15
  norm_num at h
  exact h

theorem crc16Round_xor (a b : Nat) :
    crc16Round (a ^^^ b) = crc16Round a ^^^ crc16Round b := by
  unfold crc16Round
  cases ha : a.testBit 15 <;> cases hb : b.testBit 15
  · rw [if_neg (by rw [and_mask, Nat.testBit_xor, ha, hb]; simp),
      if_neg (by rw [and_mask, ha]; simp),
      if_neg (by rw [and_mask, hb]; simp),
      shiftLeft_xor_distrib, Nat.and_xor_distrib_right]
  · rw [if_pos (by rw [and_mask, Nat.testBit_xor, ha, hb]; simp),
      if_neg (by rw [and_mask, ha]; simp),
      if_pos (by rw [and_mask, hb]; simp),
      shiftLeft_xor_distrib, ← Nat.and_xor_distrib_right]
    congr 1
    simp [Nat.xor_assoc, Nat.xor_comm, nat_xor_left_comm]
  · rw [if_pos (by rw [and_mask, Nat.testBit_xor, ha, hb]; simp),
      if_pos (by rw [and_mask, ha]; simp),
      if_neg (by rw [and_mask, hb]; simp),
      shiftLeft_xor_distrib, ← Nat.and_xor_distrib_right]
    congr 1
    simp [Nat.xor_assoc, Nat.xor_comm, nat_xor_left_comm]
  · rw [if_neg (by rw [and_mask, Nat.testBit_xor, ha, hb]; simp),
      if_pos (by rw [and_mask, ha]; simp),
      if_pos (by rw [and_mask, hb]; simp),
      shiftLeft_xor_distrib, ← Nat.and_xor_distrib_right]
    congr 1
    calc a <<< 1 ^^^ b <<< 1
        = (a <<< 1 ^^^ 4129) ^^^ (4129 ^^^ b <<< 1) := by
          rw [← Nat.xor_assoc, Nat.xor_assoc (a <<< 1) 4129 4129,
            Nat.xor_self, Nat.xor_zero]
      _ = (a <<< 1 ^^^ 4129) ^^^ (b <<< 1 ^^^ 4129) := by
          rw [Nat.xor_comm 4129 (b <<< 1)]

theorem crcRounds_xor (n : Nat) : ∀ a b,
    crcRounds n (a ^^^ b) = crcRounds n a ^^^ crcRounds n b := by
  induction n with
  | zero => intro a b; rfl
  | succ m ih =>
    intro a b
    show crcRounds m (crc16Round (a ^^^ b)) = _
    rw [crc16Round_xor]
    exact ih _ _

theorem crc16Step_xor (c1 c2 b1 b2 : Nat) :
    crc16Step (c1 ^^^ c2) (b1 ^^^ b2) = crc16Step c1 b1 ^^^ crc16Step c2 b2 := by
  unfold crc16Step
  rw [shiftLeft_xor_distrib, show (c1 ^^^ c2) ^^^ (b1 <<< 8 ^^^ b2 <<< 8) =
    (c1 ^^^ b1 <<< 8) ^^^ (c2 ^^^ b2 <<< 8) by
      simp [Nat.xor_assoc, Nat.xor_comm, nat_xor_left_comm]]
  exact crcRounds_xor 8 _ _

theorem foldl_crc16Step_xor (m1 : List Nat) : ∀ (m2 : List Nat),
    m1.length = m2.length → ∀ c1 c2,
    (List.zipWith (· ^^^ ·) m1 m2).foldl crc16Step (c1 ^^^ c2) =
      m1.foldl crc16Step c1 ^^^ m2.foldl crc16Step c2 := by
  induction m1 with
  | nil =>
    intro m2 h c1 c2
    cases m2
    · rfl
    · simp at h
  | cons a t ih =>
    intro m2 h c1 c2
    cases m2 with
    | nil => simp at h
    | cons b t2 =>
      simp only [List.zipWith_cons_cons, List.foldl_cons]
      rw [crc16Step_xor]
      exact ih t2 (by simpa using h) _ _

/-- The CRC fold with initial value 0: the linear part of `crc16_ccitt`. -/
def crc16Zero (data : List Nat) : Nat := data.foldl crc16Step 0

/-- XOR-ing a message with an error pattern of equal length XORs the CRC
with the pattern's zero-initialised CRC. -/
theorem crc16_ccitt_flip (m e : List Nat) (h : m.length = e.length) :
    crc16_ccitt (List.zipWith (· ^^^ ·) m e) = crc16_ccitt m ^^^ crc16Zero e := by
  unfold crc16_ccitt crc16Zero
  rw [← foldl_crc16Step_xor m e h, Nat.xor_zero]

theorem zipWith_xor_zero (l : List Nat) : ∀ n, l.length ≤ n →
    List.zipWith (· ^^^ ·) l (List.replicate n 0) = l := by
  induction l with
  | nil => intro n _; simp
  | cons a t ih =>
    intro n h
    cases n with
    | zero => simp at h
    | succ m =>
      simp only [List.replicate_succ, List.zipWith_cons_cons, Nat.xor_zero]
      rw [ih m (by simpa using h)]

theorem zipWith_xor_single (l : List Nat) : ∀ (p v : Nat), p < l.length →
    List.zipWith (· ^^^ ·) l ((List.replicate l.length 0).set p v) =
      l.set p (l.getD p 0 ^^^ v) := by
  induction l with
  | nil => intro p v h; simp at h
  | cons a t ih =>
    intro p v _
    cases p with
    | zero =>
      simp only [List.length_cons, List.replicate_succ, List.set_cons_zero,
        List.zipWith_cons_cons, List.getD_cons_zero]
      rw [zipWith_xor_zero t t.length le_rfl]
    | succ p' =>
      by_cases hp : p' < t.length
      · simp only [List.length_cons, List.replicate_succ, List.set_cons_succ,
          List.zipWith_cons_cons, Nat.xor_zero, List.getD_cons_succ]
        rw [ih p' v hp]
      · rw [List.set_eq_of_length_le (by simpa using hp),
          List.set_eq_of_length_le (by simp; omega)]
        simp only [List.length_cons, List.replicate_succ,
          List.zipWith_cons_cons, Nat.xor_zero]
        rw [zipWith_xor_zero t t.length le_rfl]

set_option maxRecDepth 100000 in
/-- Every single-bit error pattern inside the CRC-covered 14 bytes has a
nonzero zero-initialised CRC. -/
theorem delta_nonzero : ∀ p < 14, ∀ j < 8,
    crc16Zero ((List.replicate 14 0).set p (1 <<< j)) ≠ 0 := by decide

/-! ## Single-bit corruption is always detected (C7) -/

/-- Flip bit `j` of byte `p` of a buffer. -/
def flipBit (buf : List Nat) (p j : Nat) : List Nat :=
  buf.set p (buf.getD p 0 ^^^ (1 <<< j))

theorem recordEncode_length (seq : Nat) (slot : InfoSlot) :
    (recordEncode seq slot).length = 16 := by
  rw [recordEncode_eq]; rfl

theorem recordEncode_getD_0 (seq : Nat) (slot : InfoSlot) :
    (recordEncode seq slot).getD 0 0 = 82 := by
  rw [recordEncode_eq]; rfl

theorem recordEncode_getD_1 (seq : Nat) (slot : InfoSlot) :
    (recordEncode seq slot).getD 1 0 = 73 := by
  rw [recordEncode_eq]; rfl

theorem recordEncode_getD_14 (seq : Nat) (slot : InfoSlot) :
    (recordEncode seq slot).getD 14 0 =
      crc16_ccitt (recordBody seq slot) % 256 := by
  rw [recordEncode_eq]; rfl

theorem recordEncode_getD_15 (seq : Nat) (slot : InfoSlot) :
    (recordEncode seq slot).getD 15 0 =
      crc16_ccitt (recordBody seq slot) / 256 % 256 := by
  rw [recordEncode_eq]; rfl

theorem getD_set_self' (l : List Nat) (p a : Nat) (h : p < l.length) :
    (l.set p a).getD p 0 = a := by
  rw [List.getD_eq_getElem?_getD, List.getElem?_set_self h]
  rfl

theorem getD_set_ne' (l : List Nat) (p i a : Nat) (h : p ≠ i) :
    (l.set p a).getD i 0 = l.getD i 0 := by
  rw [List.getD_eq_getElem?_getD, List.getElem?_set_ne h,
    ← List.getD_eq_getElem?_getD]

theorem getD_take_lt (l : List Nat) (n i : Nat) (h : i < n) :
    (l.take n).getD i 0 = l.getD i 0 := by
  rw [List.getD_eq_getElem?_getD, List.getD_eq_getElem?_getD,
    List.getElem?_take_of_lt h]

theorem xor_ne_left (a d : Nat) (hd : d ≠ 0) : a ^^^ d ≠ a := by
  intro h
  have h2 := congrArg (fun x => a ^^^ x) h
  simp only [Nat.xor_cancel_left, Nat.xor_self] at h2
  exact hd h2

/-- C7: flipping any single bit of an encoded record makes `decode` return
`none` — a flip in the magic fails the magic check, a flip in the covered
bytes changes the CRC (single-bit errors are never CRC-invariant), and a
flip in the stored CRC mismatches the recomputed one. -/
theorem record_bitflip_decode_none (seq : Nat) (slot : InfoSlot) (p j : Nat)
    (hp : p < 16) (hj : j < 8) :
    recordDecode (flipBit (recordEncode seq slot) p j) = none := by
  have hC := crc16_ccitt_lt (recordBody seq slot)
  have hlen := recordEncode_length seq slot
  have hd0 : (1 <<< j) ≠ 0 := by
    rw [Nat.shiftLeft_eq, one_mul]
    exact (pow_pos (by norm_num : (0:Nat) < 2) j).ne'
  have hd256 : (1 <<< j) < 256 := by
    rw [Nat.shiftLeft_eq, one_mul]
    calc 2 ^ j ≤ 2 ^ 7 := Nat.pow_le_pow_right (by norm_num) (by omega)
      _ < 256 := by norm_num
  have htakelen : ((recordEncode seq slot).take 14).length = 14 := by
    rw [List.length_take, hlen]
    rfl
  by_cases hp0 : p = 0
  · subst hp0
    have hm : le2at (flipBit (recordEncode seq slot) 0 j) 0 ≠ RECORD_MAGIC := by
      unfold flipBit le2at
      rw [getD_set_self' _ _ _ (by omega), getD_set_ne' _ _ _ _ (by omega),
        recordEncode_getD_0, recordEncode_getD_1]
      have hne := xor_ne_left 82 _ hd0
      have hlt : 82 ^^^ (1 <<< j) < 256 := by
        have h1 : (82:Nat) < 2^8 := by norm_num
        have h2 : (1 <<< j) < 2^8 := by norm_num [hd256]
        have := Nat.xor_lt_two_pow h1 h2
        norm_num at this
        exact this
      simp only [RECORD_MAGIC]
      omega
    unfold recordDecode
    dsimp only
    rw [if_pos hm]
  by_cases hp1 : p = 1
  · subst hp1
    have hm : le2at (flipBit (recordEncode seq slot) 1 j) 0 ≠ RECORD_MAGIC := by
      unfold flipBit le2at
      rw [getD_set_ne' _ _ _ _ (by omega), getD_set_self' _ _ _ (by omega),
        recordEncode_getD_0, recordEncode_getD_1]
      have hne := xor_ne_left 73 _ hd0
      simp only [RECORD_MAGIC]
      omega
    unfold recordDecode
    dsimp only
    rw [if_pos hm]
  -- p ≥ 2: the magic bytes are untouched
  have hm : le2at (flipBit (recordEncode seq slot) p j) 0 = RECORD_MAGIC := by
    unfold flipBit le2at
    rw [getD_set_ne' _ _ _ _ (by omega), getD_set_ne' _ _ _ _ (by omega),
      recordEncode_getD_0, recordEncode_getD_1]
    rfl
  by_cases hp14 : p < 14
  · -- flip inside the CRC-covered bytes: the CRC changes
    have htake : (flipBit (recordEncode seq slot) p j).take 14 =
        List.zipWith (· ^^^ ·) ((recordEncode seq slot).take 14)
          ((List.replicate 14 0).set p (1 <<< j)) := by
      unfold flipBit
      rw [List.set_take,
        show (recordEncode seq slot).getD p 0 =
          ((recordEncode seq slot).take 14).getD p 0 from
            (getD_take_lt _ _ _ hp14).symm,
        ← zipWith_xor_single _ p _ (by rw [htakelen]; omega), htakelen]
    have hact : crc16_ccitt ((flipBit (recordEncode seq slot) p j).take 14) =
        crc16_ccitt (recordBody seq slot) ^^^
          crc16Zero ((List.replicate 14 0).set p (1 <<< j)) := by
      rw [htake, crc16_ccitt_flip _ _ (by rw [htakelen]; simp),
        recordEncode_take]
    have hexp : le2at (flipBit (recordEncode seq slot) p j) 14 =
        crc16_ccitt (recordBody seq slot) := by
      unfold flipBit le2at
      rw [getD_set_ne' _ _ _ _ (by omega), getD_set_ne' _ _ _ _ (by omega),
        recordEncode_getD_14, recordEncode_getD_15]
      omega
    have hdn := delta_nonzero p (by omega) j hj
    unfold recordDecode
    dsimp only
    rw [if_neg (by rw [hm]; exact fun h => h rfl), if_pos ?_]
    rw [hexp, hact]
    exact fun h => xor_ne_left _ _ hdn h.symm
  · -- flip inside the stored CRC: the stored value changes
    have htake : (flipBit (recordEncode seq slot) p j).take 14 =
        (recordEncode seq slot).take 14 := by
      unfold flipBit
      rw [List.set_take, List.set_eq_of_length_le (by rw [htakelen]; omega)]
    by_cases hp15 : p = 14
    · subst hp15
      unfold recordDecode
      dsimp only
      rw [if_neg (by rw [hm]; exact fun h => h rfl), if_pos ?_]
      rw [htake, recordEncode_take]
      unfold flipBit le2at
      rw [getD_set_self' _ _ _ (by omega), getD_set_ne' _ _ _ _ (by omega),
        recordEncode_getD_14, recordEncode_getD_15]
      have hne := xor_ne_left (crc16_ccitt (recordBody seq slot) % 256) _ hd0
      have hlt : crc16_ccitt (recordBody seq slot) % 256 ^^^ (1 <<< j) < 256 := by
        have h1 : crc16_ccitt (recordBody seq slot) % 256 < 2^8 := by omega
        have h2 : (1 <<< j) < 2^8 := by norm_num [hd256]
        have := Nat.xor_lt_two_pow h1 h2
        norm_num at this
        exact this
      omega
    · have hp15' : p = 15 := by omega
      subst hp15'
      unfold recordDecode
      dsimp only
      rw [if_neg (by rw [hm]; exact fun h => h rfl), if_pos ?_]
      rw [htake, recordEncode_take]
      unfold flipBit le2at
      rw [getD_set_ne' _ _ _ _ (by omega), getD_set_self' _ _ _ (by omega),
        recordEncode_getD_14, recordEncode_getD_15]
      have hne := xor_ne_left (crc16_ccitt (recordBody seq slot) / 256 % 256) _ hd0
      have hlt : crc16_ccitt (recordBody seq slot) / 256 % 256 ^^^ (1 <<< j) < 256 := by
        have h1 : crc16_ccitt (recordBody seq slot) / 256 % 256 < 2^8 := by omega
        have h2 : (1 <<< j) < 2^8 := by norm_num [hd256]
        have := Nat.xor_lt_two_pow h1 h2
        norm_num at this
        exact this
      omega

/-! ## Concrete witnesses -/

instance (s : StorageState) : Decidable s.wfFields := by
  unfold StorageState.wfFields; infer_instance

set_option maxRecDepth 1000000

set_option maxHeartbeats 8000000

/-- A store holding one live record (seq 5, timestamp 100) at head 0. -/
def c5Store : InfoStorage :=
  { data := zeroedData.set 0 (recordEncode 5 ⟨100, 10, 20⟩),
    meta := List.replicate (META_RECORD_SIZE * 2) 0,
    state := ⟨0, 1, 1, 6, 3⟩ }

/-- A full store (count = 300) over a zeroed data file. -/
def c4Store : InfoStorage :=
  { data := zeroedData,
    meta := List.replicate (META_RECORD_SIZE * 2) 0,
    state := ⟨0, 0, 300, 9, 4⟩ }

theorem record_roundtrip_witness :
    recordDecode (recordEncode 7 ⟨100, -5, 42⟩) = some ⟨7, ⟨100, -5, 42⟩⟩ :=
  record_roundtrip 7 ⟨100, -5, 42⟩ (by norm_num) (by decide)

theorem meta_roundtrip_witness :
    StorageState.from_bytes (StorageState.to_bytes ⟨3, 5, 2, 77, 9⟩) =
      some ⟨3, 5, 2, 77, 9⟩ :=
  meta_roundtrip ⟨3, 5, 2, 77, 9⟩ (by decide) (by decide) (by decide) (by decide)

theorem meta_decode_load_spec_witness :
    load_meta_pair (StorageState.to_bytes ⟨0, 0, 0, 0, 5⟩)
      (StorageState.to_bytes ⟨0, 0, 0, 0, 7⟩) = some ⟨0, 0, 0, 0, 7⟩ :=
  ((meta_decode_load_spec.2 _ _).2.2.2 ⟨0, 0, 0, 0, 5⟩ ⟨0, 0, 0, 0, 7⟩
    (by decide) (by decide)).2 (by decide)

theorem dequeue_spec_witness :
    (c5Store.dequeue).2 = .ok ⟨100, 10, 20⟩ :=
  ((dequeue_spec c5Store).2 ⟨5, ⟨100, 10, 20⟩⟩ (by decide) (by decide)).1

theorem dequeue_error_preserves_witness :
    (emptyStorage.dequeue).1 = emptyStorage ∧
    (InfoStorageError.ReadError = .ReadError ∧ emptyStorage.state.count = 0 ∨
     InfoStorageError.ReadError = .RecordCorrupted ∧
       emptyStorage.state.count ≠ 0 ∧
       emptyStorage.read_record emptyStorage.state.head = none) :=
  dequeue_error_preserves emptyStorage .ReadError (by decide)

theorem load_info_last_match_witness :
    c1Store.load_info 100 =
      .ok ((([⟨0, c1SlotA⟩, ⟨1, c1SlotB⟩] : List StoredRecord).filter
        (fun r => decide (r.slot.timestamp = 100))).getLast?.map
          (fun r => r.slot)) :=
  load_info_last_match c1Store [⟨0, c1SlotA⟩, ⟨1, c1SlotB⟩] 100 (by decide)

theorem enqueue_full_fifo_witness :
    (c4Store.enqueue ⟨50, 1, 2⟩).data =
      c4Store.data.set c4Store.state.tail
        (recordEncode c4Store.state.next_seq ⟨50, 1, 2⟩) ∧
    (c4Store.enqueue ⟨50, 1, 2⟩).state.head =
      InfoStorage.advance c4Store.state.head 1 ∧
    (c4Store.enqueue ⟨50, 1, 2⟩).state.count = STORAGE_CAPACITY ∧
    (c4Store.enqueue ⟨50, 1, 2⟩).state.tail =
      InfoStorage.advance c4Store.state.tail 1 ∧
    (c4Store.enqueue ⟨50, 1, 2⟩).state.next_seq =
      (c4Store.state.next_seq + 1) % 2^32 :=
  enqueue_full_fifo.1 c4Store ⟨50, 1, 2⟩ (by decide)

theorem full_scan_recovery_spec_witness :
    emptyStorage.full_scan_recovery.state = StorageState.initial ∧
    emptyStorage.full_scan_recovery.meta =
      StorageState.initial.to_bytes ++ StorageState.initial.to_bytes :=
  (full_scan_recovery_spec emptyStorage (by decide)).1 (by decide)

theorem record_bitflip_decode_none_witness :
    recordDecode (flipBit (recordEncode 3 ⟨42, 7, 9⟩) 5 2) = none :=
  record_bitflip_decode_none 3 ⟨42, 7, 9⟩ 5 2 (by norm_num) (by norm_num)

theorem reachable_ringInv_witness :
    ringInv (emptyStorage.enqueue ⟨1, 0, 0⟩).state :=
  reachable_ringInv _ (Reachable.enqueue ⟨1, 0, 0⟩ Reachable.init)
